import Mathlib

/-!
Verification of the bookmark extraction and normalization pipeline of
`scripts/extract_bookmarks.py`.

The development shallowly embeds the pipeline: Python values that the helper
functions inspect are modelled by `PyVal`, Python exceptions by `Except PyErr`,
filesystem state touched by the favicon fetcher and the Firefox parser by
`FexFS`, and the SQLite layer by an oracle function passed as a parameter
(`DBRead`).  All definitions are executable so that concrete runs can be
checked by `decide` / `rfl`.
-/

namespace Bookmarks

instance {ε α : Type} [DecidableEq ε] [DecidableEq α] : DecidableEq (Except ε α) := fun x y =>
  match x, y with
  | Except.error a, Except.error b =>
      if h : a = b then Decidable.isTrue (congrArg Except.error h)
      else Decidable.isFalse (fun hh => h (by cases hh; rfl))
  | Except.ok a, Except.ok b =>
      if h : a = b then Decidable.isTrue (congrArg Except.ok h)
      else Decidable.isFalse (fun hh => h (by cases hh; rfl))
  | Except.error _, Except.ok _ => Decidable.isFalse (fun hh => Except.noConfusion hh)
  | Except.ok _, Except.error _ => Decidable.isFalse (fun hh => Except.noConfusion hh)

/-- Python exception kinds that the embedded code can raise. -/
inductive PyErr where
  | valueError
  | typeError
  | jsonDecodeError
  deriving DecidableEq

/-- The subset of Python values flowing into the time converters
(`node.get('date_added')` can be absent, a string, or an integer). -/
inductive PyVal where
  | none
  | str (s : String)
  | int (n : Int)
  deriving DecidableEq

/-- Python truthiness for the values of `PyVal` (`not x` in the source). -/
def truthyPy : PyVal → Bool
  | PyVal.none => false
  | PyVal.str s => s != ""
  | PyVal.int n => n != 0

/-- Leading/trailing whitespace removal, as Python `int(str)` performs before
parsing. -/
def trimChars (cs : List Char) : List Char :=
  ((cs.dropWhile Char.isWhitespace).reverse.dropWhile Char.isWhitespace).reverse

/-- Digits of a decimal numeral to a natural number. -/
def digitsToNat (cs : List Char) : Nat :=
  cs.foldl (fun a c => a * 10 + (c.toNat - 48)) 0

/-- Python `int(string)`: optional sign and decimal digits after stripping
whitespace; anything else raises `ValueError`.  (Underscore separators and
non-ASCII digits accepted by CPython are outside the modelled subset.) -/
def pyIntOfString (s : String) : Except PyErr Int :=
  match trimChars s.data with
  | [] => Except.error PyErr.valueError
  | c :: cs =>
    let signDigits : Int × List Char :=
      if c == '-' then (-1, cs) else if c == '+' then (1, cs) else (1, c :: cs)
    match signDigits with
    | (sign, digits) =>
      if digits.isEmpty then Except.error PyErr.valueError
      else if digits.all Char.isDigit then Except.ok (sign * (digitsToNat digits : Int))
      else Except.error PyErr.valueError

/-- Python `int(x)` on the modelled values: `int(None)` raises `TypeError`,
`int(str)` parses, `int(int)` is the identity. -/
def pyInt : PyVal → Except PyErr Int
  | PyVal.none => Except.error PyErr.typeError
  | PyVal.str s => pyIntOfString s
  | PyVal.int n => Except.ok n

/-- Left-pad the decimal rendering of `n` with zeros to width `k`
(`datetime.isoformat` field padding). -/
def pad (k : Nat) (n : Nat) : String :=
  let s := toString n
  String.mk (List.replicate (k - s.length) '0') ++ s

/-- Gregorian civil date from a count of days since 1970-01-01
(the arithmetic behind Python `datetime`'s date handling). -/
def civilFromDays (z0 : Int) : Int × Nat × Nat :=
  let z := z0 + 719468
  let era : Int := z.ediv 146097
  let doe : Nat := (z.emod 146097).toNat
  let yoe : Nat := (doe - doe / 1460 + doe / 36524 - doe / 146096) / 365
  let doy : Nat := doe - (365 * yoe + yoe / 4 - yoe / 100)
  let mp : Nat := (5 * doy + 2) / 153
  let d : Nat := doy - (153 * mp + 2) / 5 + 1
  let m : Nat := if mp < 10 then mp + 3 else mp - 9
  let y : Int := era * 400 + (yoe : Int) + (if m ≤ 2 then 1 else 0)
  (y, m, d)

def usPerDay : Int := 86400000000

/-- `datetime.isoformat()` of an instant given as microseconds since
1970-01-01 UTC: `YYYY-MM-DDTHH:MM:SS[.ffffff]`; raises when the year leaves
`datetime`'s supported range 1..9999.  (`datetime.fromtimestamp`'s local
timezone is modelled as UTC.) -/
def isoOfUs (us : Int) : Except PyErr String :=
  let days := us.ediv usPerDay
  let rem : Nat := (us.emod usPerDay).toNat
  let ymd := civilFromDays days
  if ymd.1 < 1 ∨ 9999 < ymd.1 then Except.error PyErr.valueError
  else
    let usec := rem % 1000000
    let totSec := rem / 1000000
    let datePart := pad 4 ymd.1.toNat ++ "-" ++ pad 2 ymd.2.1 ++ "-" ++ pad 2 ymd.2.2
    let timePart := pad 2 (totSec / 3600) ++ ":" ++ pad 2 (totSec / 60 % 60) ++ ":" ++
      pad 2 (totSec % 60)
    let frac := if usec = 0 then "" else "." ++ pad 6 usec
    Except.ok (datePart ++ "T" ++ timePart ++ frac)

/-- Microseconds between 1601-01-01 (Chromium's epoch) and 1970-01-01. -/
def chromeEpochOffsetUs : Int := 11644473600000000

/-- `convert_chrome_time`: falsy input yields `None`; otherwise `int(...)` is
taken (raising on non-numeric input), `0` yields `None`, and any other value
is rendered as `datetime(1601,1,1) + timedelta(microseconds=n)` in ISO form
with a `Z` suffix. -/
def convert_chrome_time (t : PyVal) : Except PyErr (Option String) :=
  if truthyPy t = false then Except.ok Option.none
  else match pyInt t with
    | Except.error e => Except.error e
    | Except.ok n =>
      if n = 0 then Except.ok Option.none
      else match isoOfUs (n - chromeEpochOffsetUs) with
        | Except.error e => Except.error e
        | Except.ok s => Except.ok (Option.some (s ++ "Z"))

/-- `convert_firefox_time`: as `convert_chrome_time` but the timestamp counts
microseconds since 1970-01-01 (`datetime.fromtimestamp(n / 1000000)`). -/
def convert_firefox_time (t : PyVal) : Except PyErr (Option String) :=
  if truthyPy t = false then Except.ok Option.none
  else match pyInt t with
    | Except.error e => Except.error e
    | Except.ok n =>
      if n = 0 then Except.ok Option.none
      else match isoOfUs n with
        | Except.error e => Except.error e
        | Except.ok s => Except.ok (Option.some (s ++ "Z"))

/-- Python `s.split(sep)` with an explicit one-character separator, on the
character list of the string: `"" ↦ [""]`, adjacent separators produce empty
segments. -/
def splitOnChar (sep : Char) : List Char → List (List Char)
  | [] => [[]]
  | c :: cs =>
    let rest := splitOnChar sep cs
    if c == sep then [] :: rest
    else match rest with
      | [] => [[c]]
      | g :: gs => (c :: g) :: gs

/-- Python `s.split('/')` (and friends) as a string-level function. -/
def pySplit (s : String) (sep : Char) : List String :=
  (splitOnChar sep s.data).map (fun g => String.mk g)

/-- Python `s.startswith(p)`. -/
def pyStartswith (s p : String) : Bool :=
  p.data.isPrefixOf s.data

/-- One sextet of a base64 alphabet (`A-Za-z0-9+/`). -/
def b64Char (n : Nat) : Char :=
  if n < 26 then Char.ofNat (65 + n)
  else if n < 52 then Char.ofNat (97 + (n - 26))
  else if n < 62 then Char.ofNat (48 + (n - 52))
  else if n = 62 then '+'
  else '/'

/-- `base64.b64encode` over a byte list, producing the padded textual form. -/
def b64encode : List Nat → String
  | [] => ""
  | [a] =>
    String.mk [b64Char (a / 4), b64Char (a % 4 * 16), '=', '=']
  | [a, b] =>
    String.mk [b64Char (a / 4), b64Char (a % 4 * 16 + b / 16), b64Char (b % 16 * 4), '=']
  | a :: b :: c :: rest =>
    String.mk [b64Char (a / 4), b64Char (a % 4 * 16 + b / 16),
      b64Char (b % 16 * 4 + c / 64), b64Char (c % 64)] ++ b64encode rest

/-- One extracted bookmark, with the fields the source's record dictionaries
carry.  `Option.none` models Python `None`. -/
structure Record where
  name : Option String
  url : String
  category : String
  tags : List String
  favicon : Option String
  browser : String
  dateAdded : Option String
  lastVisited : Option String
  deriving DecidableEq

/-- JSON values as `json.dump` sees them, for the serialized record shape. -/
inductive JVal where
  | null
  | str (s : String)
  | arr (xs : List JVal)

/-- A Python `str`-or-`None` value as serialized by `json.dump`. -/
def optJ : Option String → JVal
  | Option.none => JVal.null
  | Option.some s => JVal.str s

/-- The record dictionary as literally constructed in the source
(`{'name': ..., 'url': ..., ..., 'lastVisited': ...}`): every key is present;
absent values are serialized as `null`. -/
def Record.toDict (r : Record) : List (String × JVal) :=
  [("name", optJ r.name), ("url", JVal.str r.url), ("category", JVal.str r.category),
   ("tags", JVal.arr (r.tags.map JVal.str)), ("favicon", optJ r.favicon),
   ("browser", JVal.str r.browser), ("dateAdded", optJ r.dateAdded),
   ("lastVisited", optJ r.lastVisited)]

/-- The eight keys of every serialized record. -/
def recordKeys : List String :=
  ["name", "url", "category", "tags", "favicon", "browser", "dateAdded", "lastVisited"]

/-- A node of a Chromium `Bookmarks` JSON tree, keeping the fields
`recurse_nodes` reads: `type` (url / folder / anything else), `name`, `url`,
`date_added`, `children`. -/
inductive CNode where
  | url (name : Option String) (urlv : Option String) (dateAdded : PyVal)
  | folder (name : Option String) (children : List CNode)
  | other

/-- `f"{folder_path}/{current_folder}" if folder_path else current_folder`:
how a folder extends the accumulated category path. -/
def extendPath (folderPath currentFolder : String) : String :=
  if folderPath = "" then currentFolder else folderPath ++ "/" ++ currentFolder

/-- `list(filter(None, folder_path.split('/')))`: the tags derived from a
category path. -/
def chromiumTags (folderPath : String) : List String :=
  (pySplit folderPath '/').filter (fun s => s != "")

/-- The emission condition of `recurse_nodes`:
`not (not url or not url.startswith(('http', 'https')))`.  Note that
`str.startswith` with this tuple accepts any prefix `"http"`. -/
def urlPasses (u : Option String) : Bool :=
  match u with
  | Option.none => false
  | Option.some address =>
    if address = "" then false
    else pyStartswith address "http" || pyStartswith address "https"

mutual

/-- `recurse_nodes` of `parse_chromium_bookmarks`.  Parameters: the browser
name, the `--include-favicons` flag, whether `FAVICON_PATHS` has a database
for this browser, and the result of `get_favicon_base64` on the favicon
database as a function of the bookmark's url.  An uncaught exception from
`convert_chrome_time` propagates as `Except.error`. -/
def recurseNodes (browser : String) (inc : Bool) (hasDb : Bool)
    (fav : String → Option String) : CNode → String → Except PyErr (List Record)
  | CNode.url nm u da, folderPath =>
    if urlPasses u = false then Except.ok []
    else
      match u with
      | Option.none => Except.ok []
      | Option.some address =>
        match convert_chrome_time da with
        | Except.error e => Except.error e
        | Except.ok dateAdded =>
          Except.ok [{ name := nm, url := address, category := folderPath,
                       tags := chromiumTags folderPath,
                       favicon := if inc && hasDb then fav address else Option.none,
                       browser := browser, dateAdded := dateAdded,
                       lastVisited := Option.none }]
  | CNode.folder nm children, folderPath =>
    recurseChildren browser inc hasDb fav children (extendPath folderPath (nm.getD ""))
  | CNode.other, _ => Except.ok []

/-- The `for child in node.get('children', [])` loop of `recurse_nodes`,
appending each child's records in order. -/
def recurseChildren (browser : String) (inc : Bool) (hasDb : Bool)
    (fav : String → Option String) : List CNode → String → Except PyErr (List Record)
  | [], _ => Except.ok []
  | c :: cs, folderPath =>
    match recurseNodes browser inc hasDb fav c folderPath with
    | Except.error e => Except.error e
    | Except.ok rs =>
      match recurseChildren browser inc hasDb fav cs folderPath with
      | Except.error e => Except.error e
      | Except.ok rest => Except.ok (rs ++ rest)

end

/-- State of a bookmarks input file: absent, unparsable, or parsed content. -/
inductive FileInput (α : Type) where
  | missing
  | malformed
  | ok (data : α)

/-- The parsed JSON object of a Chromium `Bookmarks` file: its `roots`
dictionary as a list of named root nodes. -/
structure ChromiumData where
  roots : List (String × CNode)

/-- `parse_chromium_bookmarks`: a missing file returns `[]` after a log line;
`json.load` on a corrupt file raises `json.JSONDecodeError`, which is not
caught anywhere in the function; otherwise `recurse_nodes(root, '')` runs on
every root in order. -/
def parse_chromium_bookmarks (input : FileInput ChromiumData) (browser : String)
    (inc : Bool) (hasDb : Bool) (fav : String → Option String) :
    Except PyErr (List Record) :=
  match input with
  | FileInput.missing => Except.ok []
  | FileInput.malformed => Except.error PyErr.jsonDecodeError
  | FileInput.ok data =>
    recurseChildren browser inc hasDb fav (data.roots.map Prod.snd) ""

/-- Filesystem state seen by the database-copying helpers: the content at the
original database path (`Option.none` = file absent) and at its `.tmp`
sibling.  Database file contents are modelled as strings. -/
structure FexFS where
  orig : Option String
  temp : Option String
  deriving DecidableEq

/-- Outcome of reading the temporary database copy: a `sqlite3.Error`, or the
values the query produced. -/
inductive DBRead (α : Type) where
  | err
  | ok (a : α)
  deriving DecidableEq

/-- `get_favicon_base64`: returns `None` if the database file is absent;
otherwise copies it to a `.tmp` sibling, queries the copy (the SQL lookup of
the derived `scheme://netloc/favicon.ico` url is the oracle `queryFavicon`),
removes the copy, and returns the image bytes as a base64 data URI when a
non-empty blob was found.  A `sqlite3.Error` is caught and logged after the
copy was made but before `os.remove`, so that path returns `None` with the
temporary file still present. -/
def get_favicon_base64 (fs : FexFS) (queryFavicon : String → DBRead (Option (List Nat))) :
    Option String × FexFS :=
  match fs.orig with
  | Option.none => (Option.none, fs)
  | Option.some db =>
    let fs1 : FexFS := { fs with temp := Option.some db }
    match queryFavicon db with
    | DBRead.err => (Option.none, fs1)
    | DBRead.ok res =>
      let fs2 : FexFS := { fs1 with temp := Option.none }
      match res with
      | Option.some bytes =>
        if bytes.isEmpty then (Option.none, fs2)
        else (Option.some ("data:image/png;base64," ++ b64encode bytes), fs2)
      | Option.none => (Option.none, fs2)

/-- One row of the recursive bookmark query of `parse_firefox_bookmarks`:
`(title, url, folder path, dateAdded, last_visit_date, favicon blob)`.  The
two timestamp columns are SQLite INTEGER columns, so they arrive as an
integer or `NULL`. -/
structure FRow where
  name : Option String
  url : Option String
  category : Option String
  dateAdded : Option Int
  lastVisited : Option Int
  faviconData : Option (List Nat)
  deriving DecidableEq

/-- A SQLite integer-or-NULL column value as a Python value. -/
def pyOfOptInt : Option Int → PyVal
  | Option.none => PyVal.none
  | Option.some n => PyVal.int n

/-- `list(filter(None, category.split('/'))) if category else []`. -/
def firefoxTags : Option String → List String
  | Option.none => []
  | Option.some c =>
    if c = "" then [] else (pySplit c '/').filter (fun s => s != "")

/-- The `for row in cursor.fetchall()` loop of `parse_firefox_bookmarks`:
rows whose url is falsy or fails the `startswith(('http', 'https'))` test are
skipped; the rest become records.  An exception raised by
`convert_firefox_time` (not a `sqlite3.Error`) propagates. -/
def processRows (browser : String) (inc : Bool) : List FRow → Except PyErr (List Record)
  | [] => Except.ok []
  | row :: rest =>
    if urlPasses row.url = false then processRows browser inc rest
    else
      match row.url with
      | Option.none => processRows browser inc rest
      | Option.some address =>
        match convert_firefox_time (pyOfOptInt row.dateAdded) with
        | Except.error e => Except.error e
        | Except.ok dateAdded =>
          match convert_firefox_time (pyOfOptInt row.lastVisited) with
          | Except.error e => Except.error e
          | Except.ok lastVisited =>
            match processRows browser inc rest with
            | Except.error e => Except.error e
            | Except.ok tail =>
              Except.ok ({ name := row.name, url := address,
                           category := row.category.getD "",
                           tags := firefoxTags row.category,
                           favicon :=
                             match row.faviconData with
                             | Option.some bytes =>
                               if inc && !bytes.isEmpty then
                                 Option.some ("data:image/png;base64," ++ b64encode bytes)
                               else Option.none
                             | Option.none => Option.none,
                           browser := browser, dateAdded := dateAdded,
                           lastVisited := lastVisited } :: tail)

/-- `parse_firefox_bookmarks`: `fs.orig` is the located `places.sqlite`
content (`Option.none` when the profiles directory or the file is missing,
both of which return `[]`).  The file is copied to a `.tmp` sibling and the
recursive query runs on the copy (oracle `queryRows`).  A `sqlite3.Error` is
caught and yields `[]` — with the temporary copy still present, since
`os.remove` sits after the row loop inside the `try`.  On success the copy is
removed and the processed rows are returned. -/
def parse_firefox_bookmarks (fs : FexFS) (queryRows : String → DBRead (List FRow))
    (browser : String) (inc : Bool) : Except PyErr (List Record) × FexFS :=
  match fs.orig with
  | Option.none => (Except.ok [], fs)
  | Option.some db =>
    let fs1 : FexFS := { fs with temp := Option.some db }
    match queryRows db with
    | DBRead.err => (Except.ok [], fs1)
    | DBRead.ok rows =>
      match processRows browser inc rows with
      | Except.error e => (Except.error e, fs1)
      | Except.ok recs => (Except.ok recs, { fs1 with temp := Option.none })

/-- The seed loading of `main`: with `--merge-existing` and an existing
output file, its parsed records (and their urls) seed the run; a
`json.JSONDecodeError` is caught and the run starts fresh. -/
def loadExisting (mergeExisting : Bool) (existingFile : FileInput (List Record)) :
    List Record :=
  if mergeExisting then
    match existingFile with
    | FileInput.missing => []
    | FileInput.malformed => []
    | FileInput.ok recs => recs
  else []

/-- One step of the dedup loop of `main`: append the bookmark and mark its
url as seen unless the url was processed already. -/
def addUnique (st : List Record × List String) (b : Record) : List Record × List String :=
  if b.url ∈ st.2 then st else (st.1 ++ [b], st.2 ++ [b.url])

/-- The merge phase of `main`: starting from the seed records and the set of
their urls, every parser result list is scanned in order and new, unique
bookmarks are appended. -/
def mergeBookmarks (seed : List Record) (parsedLists : List (List Record)) : List Record :=
  ((parsedLists.flatMap id).foldl addUnique (seed, seed.map (fun r => r.url))).1

/-- Output-file state of `main`: content at `OUTPUT_FILE` and at its `.bak`
sibling. -/
structure OutFS where
  output : Option String
  bak : Option String
  deriving DecidableEq

/-- The write phase of `main`: if the output file exists it is first copied
to the `.bak` sibling (`shutil.copy2`), then the rendered collection is
written over the output file. -/
def mainWritePhase (fs : OutFS) (rendered : String) : OutFS :=
  let fs1 := if fs.output.isSome then { fs with bak := fs.output } else fs
  { fs1 with output := Option.some rendered }

/-! Spec-side formulation of first-seen-wins deduplication, for comparison
with the driver's merge loop. -/

/-- Keep the first record per url, given an initial set of already-seen urls
(the spec's "first-seen record's fields win"). -/
def dedupFirstAux (seen : List String) : List Record → List Record
  | [] => []
  | r :: rs =>
    if r.url ∈ seen then dedupFirstAux seen rs
    else r :: dedupFirstAux (r.url :: seen) rs

/-- Keep the first record per url across a whole list. -/
def specFirstSeenDedup (l : List Record) : List Record :=
  dedupFirstAux [] l

/-- The seen-url set after `dedupFirstAux` has scanned a list. -/
def seenAfter (seen : List String) : List Record → List String
  | [] => seen
  | r :: rs =>
    if r.url ∈ seen then seenAfter seen rs
    else seenAfter (r.url :: seen) rs

theorem dedupFirstAux_congr : ∀ (l : List Record) (s1 s2 : List String),
    (∀ u, u ∈ s1 ↔ u ∈ s2) → dedupFirstAux s1 l = dedupFirstAux s2 l
  | [], _, _, _ => rfl
  | r :: rs, s1, s2, h => by
    by_cases hm : r.url ∈ s1
    · simp only [dedupFirstAux, if_pos hm, if_pos ((h r.url).mp hm)]
      exact dedupFirstAux_congr rs s1 s2 h
    · have hm2 : r.url ∉ s2 := fun hx => hm ((h _).mpr hx)
      simp only [dedupFirstAux, if_neg hm, if_neg hm2]
      refine congrArg _ (dedupFirstAux_congr rs (r.url :: s1) (r.url :: s2) fun u => ?_)
      simp [List.mem_cons, h u]

theorem foldl_addUnique : ∀ (l : List Record) (acc : List Record) (seen : List String),
    l.foldl addUnique (acc, seen) =
      (acc ++ dedupFirstAux seen l, seen ++ (dedupFirstAux seen l).map (fun r => r.url))
  | [], acc, seen => by simp [dedupFirstAux]
  | r :: rs, acc, seen => by
    by_cases hm : r.url ∈ seen
    · simp only [List.foldl_cons, addUnique, if_pos hm, dedupFirstAux]
      exact foldl_addUnique rs acc seen
    · simp only [List.foldl_cons, addUnique, if_neg hm, dedupFirstAux]
      rw [foldl_addUnique rs (acc ++ [r]) (seen ++ [r.url])]
      rw [dedupFirstAux_congr rs (seen ++ [r.url]) (r.url :: seen)
        (fun u => by simp [List.mem_append, List.mem_cons, or_comm])]
      simp [List.append_assoc]

/-- The driver's merge loop in closed form: the seed records untouched,
followed by the first-seen-deduplicated new records. -/
theorem mergeBookmarks_eq (seed : List Record) (lists : List (List Record)) :
    mergeBookmarks seed lists =
      seed ++ dedupFirstAux (seed.map (fun r => r.url)) (lists.flatMap id) := by
  simp [mergeBookmarks, foldl_addUnique]

theorem dedupFirstAux_nodup : ∀ (l : List Record) (seen : List String),
    ((dedupFirstAux seen l).map (fun r => r.url)).Nodup ∧
      ∀ u ∈ (dedupFirstAux seen l).map (fun r => r.url), u ∉ seen
  | [], seen => by simp [dedupFirstAux]
  | r :: rs, seen => by
    by_cases hm : r.url ∈ seen
    · simpa [dedupFirstAux, if_pos hm] using dedupFirstAux_nodup rs seen
    · obtain ⟨h1, h2⟩ := dedupFirstAux_nodup rs (r.url :: seen)
      simp only [dedupFirstAux, if_neg hm, List.map_cons, List.nodup_cons]
      refine ⟨⟨fun hx => (h2 _ hx) (List.mem_cons_self _ _), h1⟩, ?_⟩
      intro u hu
      rcases List.mem_cons.mp hu with h | h
      · exact h ▸ hm
      · exact fun hs => (h2 u h) (List.mem_cons_of_mem _ hs)

theorem dedupFirstAux_eq_nil : ∀ (l : List Record) (seen : List String),
    (∀ r ∈ l, r.url ∈ seen) → dedupFirstAux seen l = []
  | [], _, _ => rfl
  | r :: rs, seen, h => by
    have hm : r.url ∈ seen := h r (List.mem_cons_self _ _)
    simp only [dedupFirstAux, if_pos hm]
    exact dedupFirstAux_eq_nil rs seen (fun x hx => h x (List.mem_cons_of_mem _ hx))

theorem dedupFirstAux_of_nodup : ∀ (l : List Record) (seen : List String),
    (l.map (fun r => r.url)).Nodup → (∀ u ∈ l.map (fun r => r.url), u ∉ seen) →
    dedupFirstAux seen l = l
  | [], _, _, _ => rfl
  | r :: rs, seen, hnd, hdisj => by
    have hm : r.url ∉ seen := hdisj _ (by simp)
    simp only [dedupFirstAux, if_neg hm]
    refine congrArg _ (dedupFirstAux_of_nodup rs (r.url :: seen) ?_ ?_)
    · exact (List.nodup_cons.mp (by simpa using hnd)).2
    · intro u hu
      have hne : u ≠ r.url := by
        intro he
        exact (List.nodup_cons.mp (by simpa using hnd)).1 (he ▸ hu)
      intro hc
      rcases List.mem_cons.mp hc with h | h
      · exact hne h
      · exact hdisj u (List.mem_cons_of_mem _ hu) h

theorem dedupFirstAux_append : ∀ (l1 l2 : List Record) (seen : List String),
    dedupFirstAux seen (l1 ++ l2) =
      dedupFirstAux seen l1 ++ dedupFirstAux (seenAfter seen l1) l2
  | [], l2, seen => by simp [dedupFirstAux, seenAfter]
  | r :: rs, l2, seen => by
    by_cases hm : r.url ∈ seen
    · simp only [List.cons_append, dedupFirstAux, if_pos hm, seenAfter]
      exact dedupFirstAux_append rs l2 seen
    · simp only [List.cons_append, dedupFirstAux, if_neg hm, seenAfter]
      exact congrArg _ (dedupFirstAux_append rs l2 (r.url :: seen))

theorem mem_seenAfter : ∀ (l : List Record) (seen : List String) (u : String),
    u ∈ seenAfter seen l ↔ u ∈ seen ∨ u ∈ l.map (fun r => r.url)
  | [], seen, u => by simp [seenAfter]
  | r :: rs, seen, u => by
    by_cases hm : r.url ∈ seen
    · simp only [seenAfter, if_pos hm, mem_seenAfter rs seen u, List.map_cons,
        List.mem_cons]
      constructor
      · rintro (h | h)
        · exact Or.inl h
        · exact Or.inr (Or.inr h)
      · rintro (h | h | h)
        · exact Or.inl h
        · exact Or.inl (h ▸ hm)
        · exact Or.inr h
    · simp only [seenAfter, if_neg hm, mem_seenAfter rs (r.url :: seen) u,
        List.mem_cons, List.map_cons]
      tauto

mutual

/-- Spec-side description of the Chromium walk: for every url node that
passes the scheme filter, the list of folder names on the path from the node
the walk started at down to that url node (the starting node's own name
included when it is a folder). -/
def emittedAncestries : CNode → List (List String)
  | CNode.url _ u _ => if urlPasses u then [[]] else []
  | CNode.folder nm cs => (emittedAncestriesList cs).map (fun ns => nm.getD "" :: ns)
  | CNode.other => []

/-- `emittedAncestries` over a list of sibling nodes, in order. -/
def emittedAncestriesList : List CNode → List (List String)
  | [] => []
  | c :: cs => emittedAncestries c ++ emittedAncestriesList cs

end

mutual

/-- Every record emitted by the Chromium walk has as `category` the
`extendPath`-fold of its ancestor folder names over the starting path. -/
theorem recurseNodes_cats (b : String) (inc : Bool) (hdb : Bool)
    (fav : String → Option String) :
    (node : CNode) → (path : String) → (rs : List Record) →
      recurseNodes b inc hdb fav node path = Except.ok rs →
      rs.map (fun r => r.category) =
        (emittedAncestries node).map (fun ns => ns.foldl extendPath path)
  | CNode.url nm u da, path, rs, h => by
    by_cases hp : urlPasses u = false
    · simp only [recurseNodes, if_pos hp] at h
      injection h with h
      subst h
      simp [emittedAncestries, hp]
    · have hp' : urlPasses u = true := by revert hp; cases urlPasses u <;> simp
      simp only [recurseNodes, hp', if_neg hp] at h
      match u, hp' with
      | Option.some address, hp' =>
        simp only [emittedAncestries, hp', if_pos rfl]
        rcases hda : convert_chrome_time da with e | d
        · rw [hda] at h; exact Except.noConfusion h
        · rw [hda] at h
          injection h with h
          subst h
          simp
  | CNode.folder nm cs, path, rs, h => by
    simp only [recurseNodes] at h
    rw [recurseChildren_cats b inc hdb fav cs (extendPath path (nm.getD "")) rs h]
    simp [emittedAncestries, List.map_map, Function.comp_def]
  | CNode.other, path, rs, h => by
    simp only [recurseNodes] at h
    injection h with h
    subst h
    simp [emittedAncestries]

/-- List version of `recurseNodes_cats`. -/
theorem recurseChildren_cats (b : String) (inc : Bool) (hdb : Bool)
    (fav : String → Option String) :
    (cs : List CNode) → (path : String) → (rs : List Record) →
      recurseChildren b inc hdb fav cs path = Except.ok rs →
      rs.map (fun r => r.category) =
        (emittedAncestriesList cs).map (fun ns => ns.foldl extendPath path)
  | [], path, rs, h => by
    simp only [recurseChildren] at h
    injection h with h
    subst h
    simp [emittedAncestriesList]
  | c :: cs, path, rs, h => by
    simp only [recurseChildren] at h
    rcases hc : recurseNodes b inc hdb fav c path with e | rs1
    · rw [hc] at h; exact Except.noConfusion h
    · rw [hc] at h
      rcases hcs : recurseChildren b inc hdb fav cs path with e | rs2
      · rw [hcs] at h; exact Except.noConfusion h
      · rw [hcs] at h
        injection h with h
        subst h
        simp only [emittedAncestriesList, List.map_append]
        rw [recurseNodes_cats b inc hdb fav c path rs1 hc,
          recurseChildren_cats b inc hdb fav cs path rs2 hcs]

end

theorem extendPath_eq_empty (p n : String) : extendPath p n = "" ↔ p = "" ∧ n = "" := by
  unfold extendPath
  by_cases hp : p = ""
  · simp [hp]
  · simp only [if_neg hp]
    constructor
    · intro h
      exfalso
      have hl := congrArg String.length h
      simp [String.length_append] at hl
      exact absurd hl.1.2 (by decide)
    · rintro ⟨h, _⟩
      exact absurd h hp

theorem foldl_extendPath_eq_empty : ∀ (ns : List String) (p : String),
    ns.foldl extendPath p = "" ↔ p = "" ∧ ∀ n ∈ ns, n = ""
  | [], p => by simp
  | n :: ns, p => by
    rw [List.foldl_cons, foldl_extendPath_eq_empty ns (extendPath p n), extendPath_eq_empty]
    constructor
    · rintro ⟨⟨hp, hn⟩, hall⟩
      refine ⟨hp, fun x hx => ?_⟩
      rcases List.mem_cons.mp hx with h | h
      · exact h ▸ hn
      · exact hall x h
    · rintro ⟨hp, hall⟩
      exact ⟨⟨hp, hall n (by simp)⟩, fun x hx => hall x (List.mem_cons_of_mem _ hx)⟩

theorem empty_notMem_filterTags (l : List String) :
    "" ∉ l.filter (fun s => s != "") := by
  intro h
  have := (List.mem_filter.mp h).2
  simp at this

/-- The Firefox row loop's tags expression agrees with splitting the record's
`category` field (`category or ''`) and dropping empty segments. -/
theorem firefoxTags_eq (oc : Option String) :
    firefoxTags oc = (pySplit (oc.getD "") '/').filter (fun s => s != "") := by
  cases oc with
  | none => rfl
  | some c =>
    by_cases hc : c = ""
    · subst hc; rfl
    · simp [firefoxTags, hc]

mutual

/-- Pointwise facts about every record the Chromium walk emits: the browser
tag, the always-`None` `lastVisited`, tags derived from the category, and an
absent favicon when `--include-favicons` is off. -/
theorem recurseNodes_mem (b : String) (inc : Bool) (hdb : Bool)
    (fav : String → Option String) :
    (node : CNode) → (path : String) → (rs : List Record) →
      recurseNodes b inc hdb fav node path = Except.ok rs →
      ∀ r ∈ rs, r.browser = b ∧ r.lastVisited = Option.none ∧
        r.tags = (pySplit r.category '/').filter (fun s => s != "") ∧
        (inc = false → r.favicon = Option.none)
  | CNode.url nm u da, path, rs, h => by
    by_cases hp : urlPasses u = false
    · simp only [recurseNodes, if_pos hp] at h
      injection h with h
      subst h
      simp
    · have hp' : urlPasses u = true := by revert hp; cases urlPasses u <;> simp
      simp only [recurseNodes, hp', if_neg hp] at h
      match u, hp' with
      | Option.some address, hp' =>
        rcases hda : convert_chrome_time da with e | d
        · rw [hda] at h; exact Except.noConfusion h
        · rw [hda] at h
          injection h with h
          subst h
          intro r hr
          rcases List.mem_singleton.mp hr with rfl
          refine ⟨rfl, rfl, rfl, fun hinc => ?_⟩
          simp [hinc]
  | CNode.folder nm cs, path, rs, h => by
    simp only [recurseNodes] at h
    exact recurseChildren_mem b inc hdb fav cs (extendPath path (nm.getD "")) rs h
  | CNode.other, path, rs, h => by
    simp only [recurseNodes] at h
    injection h with h
    subst h
    simp

/-- List version of `recurseNodes_mem`. -/
theorem recurseChildren_mem (b : String) (inc : Bool) (hdb : Bool)
    (fav : String → Option String) :
    (cs : List CNode) → (path : String) → (rs : List Record) →
      recurseChildren b inc hdb fav cs path = Except.ok rs →
      ∀ r ∈ rs, r.browser = b ∧ r.lastVisited = Option.none ∧
        r.tags = (pySplit r.category '/').filter (fun s => s != "") ∧
        (inc = false → r.favicon = Option.none)
  | [], path, rs, h => by
    simp only [recurseChildren] at h
    injection h with h
    subst h
    simp
  | c :: cs, path, rs, h => by
    simp only [recurseChildren] at h
    rcases hc : recurseNodes b inc hdb fav c path with e | rs1
    · rw [hc] at h; exact Except.noConfusion h
    · rw [hc] at h
      rcases hcs : recurseChildren b inc hdb fav cs path with e | rs2
      · rw [hcs] at h; exact Except.noConfusion h
      · rw [hcs] at h
        injection h with h
        subst h
        intro r hr
        rcases List.mem_append.mp hr with hmem | hmem
        · exact recurseNodes_mem b inc hdb fav c path rs1 hc r hmem
        · exact recurseChildren_mem b inc hdb fav cs path rs2 hcs r hmem

end

/-- Pointwise facts about every record the Firefox row loop emits. -/
theorem processRows_mem (b : String) (inc : Bool) :
    ∀ (rows : List FRow) (rs : List Record), processRows b inc rows = Except.ok rs →
      ∀ r ∈ rs, r.browser = b ∧
        r.tags = (pySplit r.category '/').filter (fun s => s != "") ∧
        (inc = false → r.favicon = Option.none)
  | [], rs, h => by
    simp only [processRows] at h
    injection h with h
    subst h
    simp
  | row :: rest, rs, h => by
    simp only [processRows] at h
    by_cases hp : urlPasses row.url = false
    · rw [if_pos hp] at h
      exact processRows_mem b inc rest rs h
    · rw [if_neg hp] at h
      have hp' : urlPasses row.url = true := by revert hp; cases urlPasses row.url <;> simp
      match hu : row.url, hp' with
      | Option.some address, hp' =>
        rw [hu] at h
        rcases hda : convert_firefox_time (pyOfOptInt row.dateAdded) with e | d
        · rw [hda] at h; exact Except.noConfusion h
        · rw [hda] at h
          rcases hlv : convert_firefox_time (pyOfOptInt row.lastVisited) with e | lv
          · rw [hlv] at h; exact Except.noConfusion h
          · rw [hlv] at h
            rcases htl : processRows b inc rest with e | tail
            · rw [htl] at h; exact Except.noConfusion h
            · rw [htl] at h
              injection h with h
              subst h
              intro r hr
              rcases List.mem_cons.mp hr with rfl | hmem
              · refine ⟨rfl, ?_, fun hinc => ?_⟩
                · exact firefoxTags_eq row.category
                · cases hfd : row.faviconData with
                  | none => simp [hfd]
                  | some bytes => simp [hfd, hinc]
              · exact processRows_mem b inc rest tail htl r hmem

/-- A falsy timestamp (missing, empty string, integer zero) converts to
`None` in both converters, never to the epoch instant. -/
theorem convert_falsy_none (t : PyVal) (ht : truthyPy t = false) :
    convert_chrome_time t = Except.ok Option.none ∧
    convert_firefox_time t = Except.ok Option.none := by
  constructor <;> simp [convert_chrome_time, convert_firefox_time, ht]

/-- The constant favicon oracle used by concrete runs without favicons. -/
def favNone : String → Option String := fun _ => Option.none

/-- Claim C1: the claim says every emitted record's url starts with
`http://` or `https://`.  The code only tests `startswith(('http',
'https'))`, which is the prefix test for `"http"` alone, so the url
`"httpevil://x"` — which starts with neither `http://` nor `https://` — is
emitted.  This theorem evaluates the parser at that failing input. -/
theorem c1_startswith_code_eval :
    parse_chromium_bookmarks
      (FileInput.ok ⟨[("bookmark_bar",
        CNode.url (Option.some "e") (Option.some "httpevil://x") PyVal.none)]⟩)
      "chrome" false false favNone =
    Except.ok [{ name := Option.some "e", url := "httpevil://x", category := "",
                 tags := [], favicon := Option.none, browser := "chrome",
                 dateAdded := Option.none, lastVisited := Option.none }] ∧
    pyStartswith "httpevil://x" "http://" = false ∧
    pyStartswith "httpevil://x" "https://" = false := by decide

/-- Claim C2: when the seed loaded for `--merge-existing` has pairwise
distinct urls (as every output this driver writes does), the merged
collection has pairwise distinct urls and equals the first-seen-wins
deduplication of the seed followed by all newly parsed records in scan
order. -/
theorem c2_merge_unique_first_seen (seed : List Record) (lists : List (List Record))
    (h : (seed.map (fun r => r.url)).Nodup) :
    ((mergeBookmarks seed lists).map (fun r => r.url)).Nodup ∧
    mergeBookmarks seed lists = specFirstSeenDedup (seed ++ lists.flatMap id) := by
  have hm := mergeBookmarks_eq seed lists
  constructor
  · rw [hm, List.map_append, List.nodup_append]
    refine ⟨h, (dedupFirstAux_nodup _ _).1, ?_⟩
    intro u hu hu2
    exact (dedupFirstAux_nodup (lists.flatMap id) (seed.map (fun r => r.url))).2 u hu2 hu
  · rw [hm, specFirstSeenDedup, dedupFirstAux_append,
      dedupFirstAux_of_nodup seed [] h (by simp)]
    refine congrArg _ (dedupFirstAux_congr _ _ _ fun u => ?_)
    simp [mem_seenAfter]

theorem c2_witness :
    ((([⟨Option.some "A", "http://a", "", [], Option.none, "chrome", Option.none,
        Option.none⟩] : List Record).map (fun r => r.url)).Nodup) ∧
    (((mergeBookmarks
        [⟨Option.some "A", "http://a", "", [], Option.none, "chrome", Option.none,
          Option.none⟩]
        [[⟨Option.some "B", "http://b", "", [], Option.none, "firefox", Option.none,
           Option.none⟩,
          ⟨Option.some "A2", "http://a", "", [], Option.none, "firefox", Option.none,
           Option.none⟩]]).map (fun r => r.url)).Nodup ∧
      mergeBookmarks
        [⟨Option.some "A", "http://a", "", [], Option.none, "chrome", Option.none,
          Option.none⟩]
        [[⟨Option.some "B", "http://b", "", [], Option.none, "firefox", Option.none,
           Option.none⟩,
          ⟨Option.some "A2", "http://a", "", [], Option.none, "firefox", Option.none,
           Option.none⟩]] =
        specFirstSeenDedup
          ([⟨Option.some "A", "http://a", "", [], Option.none, "chrome", Option.none,
            Option.none⟩] ++
            [[⟨Option.some "B", "http://b", "", [], Option.none, "firefox", Option.none,
               Option.none⟩,
              ⟨Option.some "A2", "http://a", "", [], Option.none, "firefox", Option.none,
               Option.none⟩]].flatMap id)) :=
  ⟨by decide, c2_merge_unique_first_seen _ _ (by decide)⟩

/-- Claim C3 (amended): a corrupt SQLite database and an invalid existing
output file are caught and treated as empty, but a corrupt Chromium JSON
bookmarks file raises an uncaught `json.JSONDecodeError` that aborts the
run. -/
theorem c3_malformed_amended :
    (∀ (b : String) (inc hdb : Bool) (fav : String → Option String),
      parse_chromium_bookmarks FileInput.malformed b inc hdb fav =
        Except.error PyErr.jsonDecodeError) ∧
    (∀ m : Bool, loadExisting m FileInput.malformed = []) ∧
    (∀ (fs : FexFS) (q : String → DBRead (List FRow)) (b : String) (inc : Bool)
        (db : String), fs.orig = Option.some db → q db = DBRead.err →
      (parse_firefox_bookmarks fs q b inc).1 = Except.ok []) := by
  refine ⟨fun b inc hdb fav => rfl, fun m => by cases m <;> rfl, ?_⟩
  intro fs q b inc db ho hq
  simp [parse_firefox_bookmarks, ho, hq]

/-- Claim C3 counterexample: a corrupt Chromium bookmarks file makes
`parse_chromium_bookmarks` raise instead of returning an empty result. -/
theorem c3_counterexample :
    parse_chromium_bookmarks FileInput.malformed "chrome" false false favNone =
      Except.error PyErr.jsonDecodeError ∧
    parse_chromium_bookmarks FileInput.malformed "chrome" false false favNone ≠
      Except.ok [] := by decide

theorem c3_malformed_witness :
    ((⟨Option.some "db", Option.none⟩ : FexFS).orig = Option.some "db") ∧
    (parse_firefox_bookmarks ⟨Option.some "db", Option.none⟩
      (fun _ => DBRead.err) "firefox" false).1 = Except.ok [] :=
  ⟨rfl, c3_malformed_amended.2.2 ⟨Option.some "db", Option.none⟩
    (fun _ => DBRead.err) "firefox" false "db" rfl rfl⟩

/-- Claim C4 (amended): neither `get_favicon_base64` nor
`parse_firefox_bookmarks` ever mutates the original database file, and the
temporary copy is removed on the successful-read exit paths; but when the
read of the copy fails with a database error, the `except` handler returns
without running `os.remove`, so the temporary copy is left behind. -/
theorem c4_temp_cleanup_amended :
    (∀ (fs : FexFS) (q : String → DBRead (Option (List Nat))),
      (get_favicon_base64 fs q).2.orig = fs.orig ∧
      (fs.orig = Option.none → (get_favicon_base64 fs q).2 = fs) ∧
      ∀ db, fs.orig = Option.some db →
        (q db ≠ DBRead.err → (get_favicon_base64 fs q).2.temp = Option.none) ∧
        (q db = DBRead.err → (get_favicon_base64 fs q).2.temp = Option.some db)) ∧
    (∀ (fs : FexFS) (q : String → DBRead (List FRow)) (b : String) (inc : Bool),
      (parse_firefox_bookmarks fs q b inc).2.orig = fs.orig ∧
      (fs.orig = Option.none → (parse_firefox_bookmarks fs q b inc).2 = fs) ∧
      ∀ db, fs.orig = Option.some db →
        ((∃ rows recs, q db = DBRead.ok rows ∧ processRows b inc rows = Except.ok recs) →
          (parse_firefox_bookmarks fs q b inc).2.temp = Option.none) ∧
        (q db = DBRead.err → (parse_firefox_bookmarks fs q b inc).2.temp = Option.some db)) := by
  constructor
  · intro fs q
    rcases ho : fs.orig with _ | db
    · simp [get_favicon_base64, ho]
    · refine ⟨?_, by simp [ho], ?_⟩
      · rcases hq : q db with _ | res
        · simp [get_favicon_base64, ho, hq]
        · rcases res with _ | bytes
          · simp [get_favicon_base64, ho, hq]
          · by_cases hb : bytes.isEmpty <;> simp [get_favicon_base64, ho, hq, hb]
      · intro db2 ho2
        injection ho2 with ho2
        subst ho2
        constructor
        · intro hq
          rcases hqe : q db with _ | res
          · exact absurd hqe hq
          · rcases res with _ | bytes
            · simp [get_favicon_base64, ho, hqe]
            · by_cases hb : bytes.isEmpty <;> simp [get_favicon_base64, ho, hqe, hb]
        · intro hq
          simp [get_favicon_base64, ho, hq]
  · intro fs q b inc
    rcases ho : fs.orig with _ | db
    · simp [parse_firefox_bookmarks, ho]
    · refine ⟨?_, by simp [ho], ?_⟩
      · rcases hq : q db with _ | rows
        · simp [parse_firefox_bookmarks, ho, hq]
        · rcases hp : processRows b inc rows with e | recs <;>
            simp [parse_firefox_bookmarks, ho, hq, hp]
      · intro db2 ho2
        injection ho2 with ho2
        subst ho2
        constructor
        · rintro ⟨rows, recs, hq, hp⟩
          simp [parse_firefox_bookmarks, ho, hq, hp]
        · intro hq
          simp [parse_firefox_bookmarks, ho, hq]

/-- Claim C4 counterexample: with an existing database and a failing read,
the temporary copy survives the call — it is not removed on that exit
path. -/
theorem c4_counterexample :
    (get_favicon_base64 ⟨Option.some "db", Option.none⟩
      (fun _ => DBRead.err)).2.temp = Option.some "db" ∧
    Option.some "db" ≠ (Option.none : Option String) := by decide

theorem c4_temp_cleanup_witness :
    ((fun _ => DBRead.ok (Option.some [1, 2]) :
        String → DBRead (Option (List Nat))) "db" ≠ DBRead.err) ∧
    (get_favicon_base64 ⟨Option.some "db", Option.none⟩
      (fun _ => DBRead.ok (Option.some [1, 2]))).2.temp = Option.none :=
  ⟨by decide,
    ((c4_temp_cleanup_amended.1 ⟨Option.some "db", Option.none⟩
      (fun _ => DBRead.ok (Option.some [1, 2]))).2.2 "db" rfl).1 (by decide)⟩

/-- Claim C5 (amended): a falsy (zero, missing, empty) timestamp converts to
`None`; a numeric value equal to zero converts to `None`; a nonzero integer
within `datetime`'s representable range converts to an ISO-8601 instant
string with a `Z` suffix; but a non-numeric input makes `int(...)` raise,
which propagates instead of yielding `None`. -/
theorem c5_convert_amended :
    (∀ t, truthyPy t = false →
      convert_chrome_time t = Except.ok Option.none ∧
      convert_firefox_time t = Except.ok Option.none) ∧
    (∀ t n, pyInt t = Except.ok n → n = 0 →
      convert_chrome_time t = Except.ok Option.none ∧
      convert_firefox_time t = Except.ok Option.none) ∧
    (∀ n : Int, n ≠ 0 → ∀ s, isoOfUs (n - chromeEpochOffsetUs) = Except.ok s →
      convert_chrome_time (PyVal.int n) = Except.ok (Option.some (s ++ "Z"))) ∧
    (∀ n : Int, n ≠ 0 → ∀ s, isoOfUs n = Except.ok s →
      convert_firefox_time (PyVal.int n) = Except.ok (Option.some (s ++ "Z"))) ∧
    (∀ t e, pyInt t = Except.error e → truthyPy t = true →
      convert_chrome_time t = Except.error e ∧
      convert_firefox_time t = Except.error e) := by
  refine ⟨convert_falsy_none, ?_, ?_, ?_, ?_⟩
  · intro t n hpy hn
    subst hn
    by_cases ht : truthyPy t = false
    · exact convert_falsy_none t ht
    · constructor <;> simp [convert_chrome_time, convert_firefox_time, ht, hpy]
  · intro n hn s hs
    have ht : (truthyPy (PyVal.int n) = false) = False := by simp [truthyPy, hn]
    simp [convert_chrome_time, ht, pyInt, hn, hs]
  · intro n hn s hs
    have ht : (truthyPy (PyVal.int n) = false) = False := by simp [truthyPy, hn]
    simp [convert_firefox_time, ht, pyInt, hn, hs]
  · intro t e hpy ht
    constructor <;> simp [convert_chrome_time, convert_firefox_time, ht, hpy]

/-- Claim C5 counterexample: the non-numeric timestamp `"abc"` raises a
`ValueError` in both converters instead of converting to absent. -/
theorem c5_counterexample :
    convert_chrome_time (PyVal.str "abc") = Except.error PyErr.valueError ∧
    convert_firefox_time (PyVal.str "abc") = Except.error PyErr.valueError ∧
    Except.error PyErr.valueError ≠
      (Except.ok Option.none : Except PyErr (Option String)) := by decide

theorem c5_convert_witness :
    (truthyPy PyVal.none = false ∧
      convert_chrome_time PyVal.none = Except.ok Option.none) ∧
    ((13285932912000000 : Int) ≠ 0 ∧
      convert_chrome_time (PyVal.int 13285932912000000) =
        Except.ok (Option.some ("2022-01-06T08:55:12" ++ "Z"))) :=
  ⟨⟨by decide, (c5_convert_amended.1 PyVal.none (by decide)).1⟩,
   ⟨by decide, c5_convert_amended.2.2.1 13285932912000000 (by decide)
      "2022-01-06T08:55:12" (by decide)⟩⟩

/-- Claim C6: a `--merge-existing` run in which every parsed bookmark's url
is already among the seed's urls leaves the record collection exactly equal
to the loaded seed, in the same order. -/
theorem c6_merge_no_new (seed : List Record) (lists : List (List Record))
    (h : ∀ r ∈ lists.flatMap id, r.url ∈ seed.map (fun x => x.url)) :
    mergeBookmarks seed lists = seed := by
  rw [mergeBookmarks_eq, dedupFirstAux_eq_nil _ _ h, List.append_nil]

theorem c6_witness :
    (∀ r ∈ ([[⟨Option.some "A2", "http://a", "", [], Option.none, "firefox",
        Option.none, Option.none⟩]] : List (List Record)).flatMap id,
      r.url ∈ ([⟨Option.some "A", "http://a", "", [], Option.none, "chrome",
        Option.none, Option.none⟩] : List Record).map (fun x => x.url)) ∧
    mergeBookmarks
      [⟨Option.some "A", "http://a", "", [], Option.none, "chrome", Option.none,
        Option.none⟩]
      [[⟨Option.some "A2", "http://a", "", [], Option.none, "firefox", Option.none,
        Option.none⟩]] =
      [⟨Option.some "A", "http://a", "", [], Option.none, "chrome", Option.none,
        Option.none⟩] :=
  ⟨by decide, c6_merge_no_new _ _ (by decide)⟩

/-- Claim C7: every record either parser emits has `tags` equal to the
non-empty segments of `category` split on `/`, in order, and `tags` never
contains an empty segment; `"Work/Dev"` yields `["Work", "Dev"]` and `""`
yields `[]`. -/
theorem c7_tags :
    (∀ (input : FileInput ChromiumData) (b : String) (inc hdb : Bool)
        (fav : String → Option String) (rs : List Record),
      parse_chromium_bookmarks input b inc hdb fav = Except.ok rs →
      ∀ r ∈ rs, r.tags = (pySplit r.category '/').filter (fun s => s != "") ∧
        "" ∉ r.tags) ∧
    (∀ (fs : FexFS) (q : String → DBRead (List FRow)) (b : String) (inc : Bool)
        (rs : List Record),
      (parse_firefox_bookmarks fs q b inc).1 = Except.ok rs →
      ∀ r ∈ rs, r.tags = (pySplit r.category '/').filter (fun s => s != "") ∧
        "" ∉ r.tags) ∧
    chromiumTags "Work/Dev" = ["Work", "Dev"] ∧ chromiumTags "" = [] := by
  refine ⟨?_, ?_, by decide, by decide⟩
  · intro input b inc hdb fav rs h r hr
    match input with
    | FileInput.missing =>
      simp only [parse_chromium_bookmarks] at h
      injection h with h
      subst h
      cases hr
    | FileInput.malformed =>
      simp only [parse_chromium_bookmarks] at h
      exact Except.noConfusion h
    | FileInput.ok data =>
      simp only [parse_chromium_bookmarks] at h
      have := (recurseChildren_mem b inc hdb fav _ "" rs h r hr).2.2.1
      exact ⟨this, this ▸ empty_notMem_filterTags _⟩
  · intro fs q b inc rs h r hr
    rcases ho : fs.orig with _ | db
    · simp only [parse_firefox_bookmarks, ho] at h
      injection h with h
      subst h
      cases hr
    · rcases hq : q db with _ | rows
      · simp only [parse_firefox_bookmarks, ho, hq] at h
        injection h with h
        subst h
        cases hr
      · rcases hp : processRows b inc rows with e | recs
        · simp only [parse_firefox_bookmarks, ho, hq, hp] at h
          exact Except.noConfusion h
        · simp only [parse_firefox_bookmarks, ho, hq, hp] at h
          injection h with h
          subst h
          have := (processRows_mem b inc rows _ hp r hr).2.1
          exact ⟨this, this ▸ empty_notMem_filterTags _⟩

theorem c7_witness :
    (parse_chromium_bookmarks
      (FileInput.ok ⟨[("other",
        CNode.folder (Option.some "Work")
          [CNode.folder (Option.some "Dev")
            [CNode.url (Option.some "D") (Option.some "https://d") PyVal.none]])]⟩)
      "chrome" false false favNone =
      Except.ok [⟨Option.some "D", "https://d", "Work/Dev", ["Work", "Dev"],
        Option.none, "chrome", Option.none, Option.none⟩]) ∧
    ((⟨Option.some "D", "https://d", "Work/Dev", ["Work", "Dev"], Option.none,
        "chrome", Option.none, Option.none⟩ : Record).tags =
      (pySplit (⟨Option.some "D", "https://d", "Work/Dev", ["Work", "Dev"],
        Option.none, "chrome", Option.none, Option.none⟩ : Record).category '/').filter
        (fun s => s != "") ∧
      "" ∉ (⟨Option.some "D", "https://d", "Work/Dev", ["Work", "Dev"], Option.none,
        "chrome", Option.none, Option.none⟩ : Record).tags) :=
  ⟨by decide,
    c7_tags.1
      (FileInput.ok ⟨[("other",
        CNode.folder (Option.some "Work")
          [CNode.folder (Option.some "Dev")
            [CNode.url (Option.some "D") (Option.some "https://d") PyVal.none]])]⟩)
      "chrome" false false favNone
      [⟨Option.some "D", "https://d", "Work/Dev", ["Work", "Dev"], Option.none,
        "chrome", Option.none, Option.none⟩]
      (by decide) _ (by decide)⟩

/-- Claim C8 (amended): each emitted record's `category` is the accumulated
folder path from the root node down to the bookmark, where a folder extends a
non-empty path with `/` and its name and replaces an empty path by its name —
so the root folder's own name is the first segment — and a category is empty
exactly when every folder name on that path is empty (not exactly for
root-level bookmarks: a bookmark directly under a named root folder carries
that root's name as its category). -/
theorem c8_category_amended (data : ChromiumData) (b : String) (inc hdb : Bool)
    (fav : String → Option String) (rs : List Record)
    (h : parse_chromium_bookmarks (FileInput.ok data) b inc hdb fav = Except.ok rs) :
    rs.map (fun r => r.category) =
      (emittedAncestriesList (data.roots.map Prod.snd)).map
        (fun ns => ns.foldl extendPath "") ∧
    ∀ ns : List String, ns.foldl extendPath "" = "" ↔ ∀ n ∈ ns, n = "" := by
  simp only [parse_chromium_bookmarks] at h
  refine ⟨recurseChildren_cats b inc hdb fav _ "" rs h, fun ns => ?_⟩
  rw [foldl_extendPath_eq_empty]
  simp

/-- Claim C8 counterexample: a bookmark stored directly at root level (under
the root folder "Bookmarks bar") is emitted with the non-empty category
"Bookmarks bar", where the claim requires the empty, root-relative
category. -/
theorem c8_counterexample :
    parse_chromium_bookmarks
      (FileInput.ok ⟨[("bookmark_bar",
        CNode.folder (Option.some "Bookmarks bar")
          [CNode.url (Option.some "A") (Option.some "http://a") PyVal.none])]⟩)
      "chrome" false false favNone =
    Except.ok [⟨Option.some "A", "http://a", "Bookmarks bar", ["Bookmarks bar"],
      Option.none, "chrome", Option.none, Option.none⟩] ∧
    "Bookmarks bar" ≠ "" := by decide

theorem c8_witness :
    (parse_chromium_bookmarks
      (FileInput.ok ⟨[("bookmark_bar",
        CNode.folder (Option.some "Bookmarks bar")
          [CNode.url (Option.some "B") (Option.some "http://b") PyVal.none])]⟩)
      "chrome" false false favNone =
      Except.ok [⟨Option.some "B", "http://b", "Bookmarks bar", ["Bookmarks bar"],
        Option.none, "chrome", Option.none, Option.none⟩]) ∧
    (([⟨Option.some "B", "http://b", "Bookmarks bar", ["Bookmarks bar"],
        Option.none, "chrome", Option.none, Option.none⟩] : List Record).map
        (fun r => r.category) =
      (emittedAncestriesList
        (([("bookmark_bar",
          CNode.folder (Option.some "Bookmarks bar")
            [CNode.url (Option.some "B") (Option.some "http://b") PyVal.none])] :
            List (String × CNode)).map Prod.snd)).map
        (fun ns => ns.foldl extendPath "") ∧
      ∀ ns : List String, ns.foldl extendPath "" = "" ↔ ∀ n ∈ ns, n = "") :=
  ⟨by decide,
    c8_category_amended
      ⟨[("bookmark_bar",
        CNode.folder (Option.some "Bookmarks bar")
          [CNode.url (Option.some "B") (Option.some "http://b") PyVal.none])]⟩
      "chrome" false false favNone
      [⟨Option.some "B", "http://b", "Bookmarks bar", ["Bookmarks bar"],
        Option.none, "chrome", Option.none, Option.none⟩] (by decide)⟩

/-- Claim C9: when the output file exists at write time, its prior content is
placed at the `.bak` sibling before the new rendering overwrites the output
file. -/
theorem c9_backup (fs : OutFS) (rendered prior : String)
    (h : fs.output = Option.some prior) :
    (mainWritePhase fs rendered).bak = Option.some prior ∧
    (mainWritePhase fs rendered).output = Option.some rendered := by
  simp [mainWritePhase, h]

theorem c9_witness :
    ((⟨Option.some "old", Option.none⟩ : OutFS).output = Option.some "old") ∧
    ((mainWritePhase ⟨Option.some "old", Option.none⟩ "new").bak =
      Option.some "old" ∧
     (mainWritePhase ⟨Option.some "old", Option.none⟩ "new").output =
      Option.some "new") :=
  ⟨by decide, c9_backup ⟨Option.some "old", Option.none⟩ "new" "old" (by decide)⟩

/-- Every serialized record carries exactly the eight expected keys. -/
theorem toDict_keys (r : Record) : r.toDict.map Prod.fst = recordKeys := rfl

theorem lookup_lastVisited (r : Record) :
    List.lookup "lastVisited" r.toDict = Option.some (optJ r.lastVisited) := rfl

theorem lookup_favicon (r : Record) :
    List.lookup "favicon" r.toDict = Option.some (optJ r.favicon) := rfl

theorem lookup_dateAdded (r : Record) :
    List.lookup "dateAdded" r.toDict = Option.some (optJ r.dateAdded) := rfl

/-- Claim C10: every emitted record serializes with exactly the eight keys
`name, url, category, tags, favicon, browser, dateAdded, lastVisited`;
absent values appear as the key mapped to `null`: `favicon` when favicons
are not requested, `lastVisited` for every Chromium record, and the two
timestamps whenever the source timestamp is zero or missing. -/
theorem c10_record_shape :
    (∀ (input : FileInput ChromiumData) (b : String) (inc hdb : Bool)
        (fav : String → Option String) (rs : List Record),
      parse_chromium_bookmarks input b inc hdb fav = Except.ok rs →
      ∀ r ∈ rs, r.toDict.map Prod.fst = recordKeys ∧
        List.lookup "lastVisited" r.toDict = Option.some JVal.null ∧
        (inc = false → List.lookup "favicon" r.toDict = Option.some JVal.null)) ∧
    (∀ (fs : FexFS) (q : String → DBRead (List FRow)) (b : String) (inc : Bool)
        (rs : List Record),
      (parse_firefox_bookmarks fs q b inc).1 = Except.ok rs →
      ∀ r ∈ rs, r.toDict.map Prod.fst = recordKeys ∧
        (inc = false → List.lookup "favicon" r.toDict = Option.some JVal.null)) ∧
    (∀ r : Record, r.dateAdded = Option.none →
      List.lookup "dateAdded" r.toDict = Option.some JVal.null) ∧
    (∀ t, truthyPy t = false →
      convert_chrome_time t = Except.ok Option.none ∧
      convert_firefox_time t = Except.ok Option.none) := by
  refine ⟨?_, ?_, ?_, convert_falsy_none⟩
  · intro input b inc hdb fav rs h r hr
    match input with
    | FileInput.missing =>
      simp only [parse_chromium_bookmarks] at h
      injection h with h
      subst h
      cases hr
    | FileInput.malformed =>
      simp only [parse_chromium_bookmarks] at h
      exact Except.noConfusion h
    | FileInput.ok data =>
      simp only [parse_chromium_bookmarks] at h
      obtain ⟨_, hlv, _, hfav⟩ := recurseChildren_mem b inc hdb fav _ "" rs h r hr
      refine ⟨toDict_keys r, ?_, fun hinc => ?_⟩
      · rw [lookup_lastVisited, hlv]; rfl
      · rw [lookup_favicon, hfav hinc]; rfl
  · intro fs q b inc rs h r hr
    rcases ho : fs.orig with _ | db
    · simp only [parse_firefox_bookmarks, ho] at h
      injection h with h
      subst h
      cases hr
    · rcases hq : q db with _ | rows
      · simp only [parse_firefox_bookmarks, ho, hq] at h
        injection h with h
        subst h
        cases hr
      · rcases hp : processRows b inc rows with e | recs
        · simp only [parse_firefox_bookmarks, ho, hq, hp] at h
          exact Except.noConfusion h
        · simp only [parse_firefox_bookmarks, ho, hq, hp] at h
          injection h with h
          subst h
          obtain ⟨_, _, hfav⟩ := processRows_mem b inc rows _ hp r hr
          exact ⟨toDict_keys r, fun hinc => by rw [lookup_favicon, hfav hinc]; rfl⟩
  · intro r hda
    rw [lookup_dateAdded, hda]
    rfl

theorem c10_witness :
    (parse_chromium_bookmarks
      (FileInput.ok ⟨[("bookmark_bar",
        CNode.url (Option.some "Z") (Option.some "http://z") (PyVal.int 0))]⟩)
      "brave" false false favNone =
      Except.ok [⟨Option.some "Z", "http://z", "", [], Option.none, "brave",
        Option.none, Option.none⟩]) ∧
    ((⟨Option.some "Z", "http://z", "", [], Option.none, "brave", Option.none,
        Option.none⟩ : Record).toDict.map Prod.fst = recordKeys ∧
      List.lookup "lastVisited"
        (⟨Option.some "Z", "http://z", "", [], Option.none, "brave", Option.none,
          Option.none⟩ : Record).toDict = Option.some JVal.null ∧
      (false = false →
        List.lookup "favicon"
          (⟨Option.some "Z", "http://z", "", [], Option.none, "brave", Option.none,
            Option.none⟩ : Record).toDict = Option.some JVal.null)) :=
  ⟨by decide,
    c10_record_shape.1
      (FileInput.ok ⟨[("bookmark_bar",
        CNode.url (Option.some "Z") (Option.some "http://z") (PyVal.int 0))]⟩)
      "brave" false false favNone
      [⟨Option.some "Z", "http://z", "", [], Option.none, "brave", Option.none,
        Option.none⟩] (by decide) _ (by decide)⟩

end Bookmarks
